import Mathlib

/-!
Verification of the cozo schema builder (`src/definition.rs`) and insertion
operator (`src/algebra/op/insert.rs`) against their specification.

The Rust sources are shallowly embedded: parse-tree fragments become inductive
data mirroring the pair structure the builders destructure, fallible functions
return `Except`, and functions taking `&mut self` return the (possibly
mutated) state alongside the result so that mutations surviving an error are
visible.  Pieces of the repository that the sources use but that are not part
of the source set (the typing environment in `typing.rs`, the ddl context in
`ddl/reify.rs`, the tuple codec in `data/tuple.rs`, the store handles) are
modelled from the specification; each such definition says so in its doc
comment.
-/

namespace Cozo

/-! ## Schema data model (from `typing.rs` usage in `definition.rs`, spec section 3) -/

/-- Persistence of a table: Global tables live in the durable root store,
Local ones in the per-session temporary store. -/
inductive Persistence
  | Global
  | Local
deriving DecidableEq, Repr

/-- TableId is a pair of persistence and a monotonically assigned id
(spec section 3).  `definition.rs` accesses the persistence as `.0`. -/
structure TableId where
  persistence : Persistence
  id : Nat
deriving DecidableEq, Repr

/-- Derived flag: `in_root` is true exactly for Global persistence
(spec section 3). -/
def TableId.in_root (t : TableId) : Bool :=
  match t.persistence with
  | .Global => true
  | .Local => false

/-- Typing: a named primitive resolved from the environment, a homogeneous
list, or a nullable wrapper (`Typing::HList`, `Typing::Nullable` in the
source; the primitive alternative is modelled from the spec since
`typing.rs` is not among the sources). -/
inductive Typing
  | base (name : String)
  | hlist (inner : Typing)
  | nullable (inner : Typing)
deriving DecidableEq, Repr

/-- Value: the only value this core ever produces is `Value::Null`
(`build_default_value` in `definition.rs`). -/
inductive Value
  | null
deriving DecidableEq, Repr

/-- A column definition: name, typing and an optional default value
(`Col` in `typing.rs`, modelled from its use in `definition.rs`). -/
structure Col where
  name : String
  typ : Typing
  default : Option Value
deriving DecidableEq, Repr

/-- A node definition (`Node` in `typing.rs`, fields as constructed by
`build_node_def`). -/
structure Node where
  id : TableId
  keys : List Col
  cols : List Col
  out_e : List TableId
  in_e : List TableId
  attached : List TableId
deriving DecidableEq, Repr

/-- An edge definition (`Edge` in `typing.rs`, fields as constructed by
`build_edge_def`). -/
structure Edge where
  src : TableId
  dst : TableId
  id : TableId
  keys : List Col
  cols : List Col
deriving DecidableEq, Repr

/-- Storage status tag carried next to each stored definition; only
`Planned` is used by the builders. -/
inductive StorageStatus
  | Planned
deriving DecidableEq, Repr

/-- An entity stored in the environment: a node, an edge, or a typing
(`Structured` in `typing.rs`). -/
inductive Structured
  | node (n : Node) (s : StorageStatus)
  | edge (e : Edge) (s : StorageStatus)
  | typing (t : Typing)
deriving DecidableEq, Repr

/-- Errors raised by the schema builder (`CozoError` variants used in
`definition.rs`).  `Unreachable` models the `unreachable!()` panics. -/
inductive CozoError
  | ReservedIdent
  | UndefinedType
  | WrongType
  | IncompatibleEdge
  | NameConflict
  | Unreachable
deriving DecidableEq, Repr

/-! ## Parse-tree fragments

The parser is out of scope (spec section 1); the builders receive parsed
fragments.  These inductives mirror exactly the structure the `definition.rs`
functions destructure from the pest pairs. -/

/-- A typing fragment: an optional nullable marker followed by either a
simple (named) type or a list type (`build_type`). -/
inductive TypeFrag
  | simple (nullable : Bool) (name : String)
  | list (nullable : Bool) (inner : TypeFrag)
deriving DecidableEq, Repr

/-- A column entry: optional key marker, the column name, its typing and
whether a default expression is present (`build_col_entry`,
`parse_col_name`). -/
structure ColEntryFrag where
  is_key : Bool
  name : String
  typ : TypeFrag
  hasDefault : Bool
deriving DecidableEq, Repr

/-- A node definition fragment: the name and the column block
(`build_node_def`). -/
structure NodeDefFrag where
  name : String
  cols : List ColEntryFrag
deriving DecidableEq, Repr

/-- An edge definition fragment: source node name, edge name, destination
node name, optional column block (`build_edge_def`). -/
structure EdgeDefFrag where
  src_name : String
  name : String
  dst_name : String
  cols : Option (List ColEntryFrag)
deriving DecidableEq, Repr

/-! ## The scope item and its operations -/

/-- One scope of the environment: an ordered list of named entities
(`StructuredEnvItem`; modelled from the spec since `typing.rs` is not among
the sources). -/
structure StructuredEnvItem where
  bindings : List (String × Structured)
deriving DecidableEq, Repr

/-- Modelled from the spec: `resolve(name)` looks the name up among the
scope's bindings (first match). -/
def StructuredEnvItem.resolve (it : StructuredEnvItem) (name : String) :
    Option Structured :=
  (it.bindings.find? (fun p => p.1 == name)).map Prod.snd

/-- Modelled from the spec: `define_new(name, entity)` inserts at this scope
and reports false on conflict, without replacement. -/
def StructuredEnvItem.define_new (it : StructuredEnvItem) (name : String)
    (s : Structured) : Bool × StructuredEnvItem :=
  if (it.resolve name).isSome then (false, it)
  else (true, ⟨it.bindings ++ [(name, s)]⟩)

/-- Modelled from the spec: the in-place update performed through
`resolve_mut` replaces the first binding carrying the given name. -/
def updateFirst : List (String × Structured) → String → Structured →
    List (String × Structured)
  | [], _, _ => []
  | (k, v) :: rest, name, s =>
    if k == name then (k, s) :: rest else (k, v) :: updateFirst rest name s

/-! ## The schema builder (`definition.rs`) -/

/-- The reserved-identifier test of `build_name_in_def`: whether the name
starts with an underscore (expressed on the character list so it reduces
definitionally). -/
def startsWithUnderscore (s : String) : Bool :=
  match s.data with
  | [] => false
  | c :: _ => c == '_'

/-- Embeds `build_name_in_def`: the string content of the name pair, with
the reserved-identifier check. -/
def build_name_in_def (name : String) (forbid_underscore : Bool) :
    Except CozoError String :=
  if forbid_underscore && startsWithUnderscore name then .error .ReservedIdent
  else .ok name

/-- Embeds `build_type`: resolve a simple type name to a typing from the
environment, recurse into list types, and wrap the nullable marker at the
outermost level. -/
def build_type (it : StructuredEnvItem) : TypeFrag → Except CozoError Typing
  | .simple nl nm =>
    match it.resolve nm with
    | some (.typing t) => .ok (if nl then .nullable t else t)
    | _ => .error .UndefinedType
  | .list nl inner =>
    match build_type it inner with
    | .error e => .error e
    | .ok t => .ok (if nl then .nullable (.hlist t) else .hlist t)

/-- Embeds `build_default_value`: the default expression is parsed but not
evaluated; the source returns `Value::Null`. -/
def build_default_value : Except CozoError Value :=
  .ok .null

/-- Embeds `build_col_entry` together with `parse_col_name`: name with
reserved check, typing, optional default. -/
def build_col_entry (it : StructuredEnvItem) (f : ColEntryFrag) :
    Except CozoError (Col × Bool) :=
  match build_name_in_def f.name true with
  | .error e => .error e
  | .ok name =>
    match build_type it f.typ with
    | .error e => .error e
    | .ok typ =>
      match (if f.hasDefault then Except.map some build_default_value
             else .ok none) with
      | .error e => .error e
      | .ok dflt =>
        .ok ({ name := name, typ := typ, default := dflt }, f.is_key)

/-- Embeds `build_col_defs`: partition the entries into key columns and
value columns, preserving source order. -/
def build_col_defs (it : StructuredEnvItem) :
    List ColEntryFrag → Except CozoError (List Col × List Col)
  | [] => .ok ([], [])
  | f :: rest =>
    match build_col_entry it f with
    | .error e => .error e
    | .ok (col, is_key) =>
      match build_col_defs it rest with
      | .error e => .error e
      | .ok (keys, cols) =>
        .ok (if is_key then (col :: keys, cols) else (keys, col :: cols))

/-- Embeds `build_node_def`: parse the name and columns, create the node
with empty edge lists, then register it; `NameConflict` if `define_new`
refuses.  The scope item is returned alongside the result so that mutations
surviving an error are visible. -/
def build_node_def (it : StructuredEnvItem) (f : NodeDefFrag)
    (table_id : TableId) : StructuredEnvItem × Except CozoError Unit :=
  match build_name_in_def f.name true with
  | .error e => (it, .error e)
  | .ok name =>
    match build_col_defs it f.cols with
    | .error e => (it, .error e)
    | .ok (keys, cols) =>
      let node : Node :=
        { id := table_id, keys := keys, cols := cols
          out_e := [], in_e := [], attached := [] }
      let res := it.define_new name (.node node .Planned)
      if res.1 then (res.2, .ok ()) else (it, .error .NameConflict)

/-- Embeds the optional column block of `build_edge_def`: absent blocks
yield empty key and value lists. -/
def edgeColDefs (it : StructuredEnvItem) :
    Option (List ColEntryFrag) → Except CozoError (List Col × List Col)
  | some p => build_col_defs it p
  | none => .ok ([], [])

/-- Embeds `build_edge_def`: resolve both endpoints (each must be a node),
reject a Global edge with a Local endpoint, parse columns, register the
edge, then append the back-references to the endpoint nodes.  The
`unreachable!()` panics of the source are modelled as `Unreachable`
errors. -/
def build_edge_def (it : StructuredEnvItem) (f : EdgeDefFrag)
    (table_id : TableId) : StructuredEnvItem × Except CozoError Unit :=
  match build_name_in_def f.src_name true with
  | .error e => (it, .error e)
  | .ok src_name =>
    match it.resolve src_name with
    | none => (it, .error .UndefinedType)
    | some (.edge _ _) => (it, .error .WrongType)
    | some (.typing _) => (it, .error .WrongType)
    | some (.node sn _) =>
      let src_id := sn.id
      match build_name_in_def f.name true with
      | .error e => (it, .error e)
      | .ok name =>
        match build_name_in_def f.dst_name true with
        | .error e => (it, .error e)
        | .ok dst_name =>
          match it.resolve dst_name with
          | none => (it, .error .UndefinedType)
          | some (.edge _ _) => (it, .error .WrongType)
          | some (.typing _) => (it, .error .WrongType)
          | some (.node dn _) =>
            let dst_id := dn.id
            if table_id.persistence == .Global &&
                (src_id.persistence == .Local || dst_id.persistence == .Local)
            then (it, .error .IncompatibleEdge)
            else
              match edgeColDefs it f.cols with
              | .error e => (it, .error e)
              | .ok (keys, cols) =>
                let edge : Edge :=
                  { src := src_id, dst := dst_id, id := table_id
                    keys := keys, cols := cols }
                let res := it.define_new name (.edge edge .Planned)
                if res.1 then
                  let it1 := res.2
                  match it1.resolve src_name with
                  | some (.node sn1 sst) =>
                    let it2 : StructuredEnvItem :=
                      ⟨updateFirst it1.bindings src_name
                        (.node { sn1 with out_e := sn1.out_e ++ [table_id] } sst)⟩
                    match it2.resolve dst_name with
                    | some (.node dn1 dsts) =>
                      let it3 : StructuredEnvItem :=
                        ⟨updateFirst it2.bindings dst_name
                          (.node { dn1 with in_e := dn1.in_e ++ [table_id] } dsts)⟩
                      (it3, .ok ())
                    | _ => (it2, .error .Unreachable)
                  | _ => (it1, .error .Unreachable)
                else (it, .error .NameConflict)

/-! ## The scoped environment and `build_table` -/

/-- The scoped environment: a root scope, inner scopes (the last of which is
the current scope) and the two monotonic id counters.  Modelled from the
spec: `typing.rs` is not among the sources. -/
structure StructuredEnv where
  root : StructuredEnvItem
  subscopes : List StructuredEnvItem
  next_global_id : Nat
  next_local_id : Nat
deriving DecidableEq, Repr

/-- Modelled from the spec: the current scope is the innermost one (the
root when no inner scope is open). -/
def StructuredEnv.curScope (env : StructuredEnv) : StructuredEnvItem :=
  env.subscopes.getLast?.getD env.root

/-- Modelled from the spec: `next_table_id(is_local)` returns a fresh id of
the requested persistence; ids are monotonic per persistence. -/
def StructuredEnv.get_next_table_id (env : StructuredEnv)
    (is_local : Bool) : TableId × StructuredEnv :=
  if is_local then
    (⟨.Local, env.next_local_id⟩,
      { env with next_local_id := env.next_local_id + 1 })
  else
    (⟨.Global, env.next_global_id⟩,
      { env with next_global_id := env.next_global_id + 1 })

/-- Modelled from the spec: `root_mut()` exposes the root scope; the given
builder runs on it and the environment is reassembled around the result. -/
def StructuredEnv.applyRoot (env : StructuredEnv)
    (f : StructuredEnvItem → StructuredEnvItem × Except CozoError Unit) :
    StructuredEnv × Except CozoError Unit :=
  let r := f env.root
  ({ env with root := r.1 }, r.2)

/-- Helper for `applyCur`: run the builder on the last element of a
non-empty list of scopes. -/
def applyLastNE
    (f : StructuredEnvItem → StructuredEnvItem × Except CozoError Unit)
    (x : StructuredEnvItem) :
    List StructuredEnvItem → List StructuredEnvItem × Except CozoError Unit
  | [] =>
    let r := f x
    ([r.1], r.2)
  | z :: zs =>
    let r := applyLastNE f z zs
    (x :: r.1, r.2)

/-- Modelled from the spec: `cur_mut()` exposes the current (innermost)
scope; the given builder runs on it. -/
def StructuredEnv.applyCur (env : StructuredEnv)
    (f : StructuredEnvItem → StructuredEnvItem × Except CozoError Unit) :
    StructuredEnv × Except CozoError Unit :=
  match env.subscopes with
  | [] => env.applyRoot f
  | x :: xs =>
    let r := applyLastNE f x xs
    ({ env with subscopes := r.1 }, r.2)

/-- The kind of definition inside a `global_def` or `local_def` wrapper. -/
inductive DefKindFrag
  | nodeDef (f : NodeDefFrag)
  | edgeDef (f : EdgeDefFrag)
deriving DecidableEq, Repr

/-- One top-level schema fragment: the scope marker rule
(`Rule::local_def` vs `Rule::global_def`) and the wrapped definition. -/
structure DefFrag where
  is_local_marker : Bool
  defn : DefKindFrag
deriving DecidableEq, Repr

/-- Embeds one loop iteration of `StructuredEnv::build_table`: allocate the
next table id for the marker's persistence, select the target scope
(the source selects `root_mut()` when the marker is local and `cur_mut()`
otherwise), and dispatch on the definition kind. -/
def buildOneDef (env : StructuredEnv) (frag : DefFrag) :
    StructuredEnv × Except CozoError Unit :=
  let is_local := frag.is_local_marker
  let alloc := env.get_next_table_id is_local
  let next_id := alloc.1
  let env1 := alloc.2
  let app := fun it =>
    match frag.defn with
    | .nodeDef f => build_node_def it f next_id
    | .edgeDef f => build_edge_def it f next_id
  if is_local then env1.applyRoot app else env1.applyCur app

/-- Embeds `StructuredEnv::build_table`: process the fragments in order,
stopping at the first error (mutations already committed persist, matching
the `?` propagation in the source loop). -/
def build_table (env : StructuredEnv) :
    List DefFrag → StructuredEnv × Except CozoError Unit
  | [] => (env, .ok ())
  | f :: rest =>
    match buildOneDef env f with
    | (env1, .ok ()) => build_table env1 rest
    | (env1, .error e) => (env1, .error e)

/-! ## Runtime data model for the insertion operator (`insert.rs`) -/

/-- A runtime cell value appearing in encoded tuples. -/
inductive Val
  | bool (b : Bool)
  | int (i : Int)
  | str (s : String)
deriving DecidableEq, Repr

/-- An owned tuple (`OwnTuple`): a numeric discriminator followed by the
encoded cells.  Modelled from the spec: `data/tuple.rs` is not among the
sources; keys carry table-id discriminators, values carry `DataKind`
discriminators. -/
structure Tuple where
  pfx : Nat
  data : List Val
deriving DecidableEq, Repr

/-- Embeds `OwnTuple::overwrite_prefix`: in-place replacement of the
discriminator, keeping the cells. -/
def Tuple.overwritePfx (t : Tuple) (newId : Nat) : Tuple :=
  { t with pfx := newId }

/-- Modelled from the spec: the reserved payload discriminator
`DataKind::Data` (`data/tuple.rs` is not among the sources; its concrete
numeric value is irrelevant to the claims). -/
def DataKindData : Nat := 0

/-- Errors surfaced by the insertion operator (`AlgebraParseError` and
`MutationError` variants used in `insert.rs`).  `MissingEntry`, `NotANode`
and `EvalFailed` model failures of the ddl-context lookups and of the
extractors, which are not among the sources. -/
inductive InsertError
  | TableNotFound (name : String)
  | WrongTableKind (tid : TableId)
  | WrongSpecification
  | NoAssociation (assocName : String) (mainName : String)
  | KeyConflict (key : Tuple)
  | MissingEntry (tid : TableId)
  | NotANode (tid : TableId)
  | EvalFailed (colName : String)
  | UnreachableKind
deriving DecidableEq, Repr

/-- A column of a reified table, as used by the extractor compiler; only the
name is needed to look the column up in the extract map.  Modelled from the
spec: `ddl/reify.rs` is not among the sources. -/
structure ColSpec where
  name : String
deriving DecidableEq, Repr

/-- Reified node table info (`ddl/reify.rs`; modelled from the spec). -/
structure NodeInfo where
  tid : TableId
  name : String
  keys : List ColSpec
  vals : List ColSpec
deriving DecidableEq, Repr

/-- Reified edge table info (`ddl/reify.rs`; modelled from the spec). -/
structure EdgeInfo where
  tid : TableId
  src_id : TableId
  dst_id : TableId
  name : String
  keys : List ColSpec
  vals : List ColSpec
deriving DecidableEq, Repr

/-- Reified association table info: attaches extra value columns to the
rows of the main table `src_id` (`ddl/reify.rs`; modelled from the spec). -/
structure AssocInfo where
  tid : TableId
  src_id : TableId
  name : String
  vals : List ColSpec
deriving DecidableEq, Repr

/-- Reified table info as classified by the insertion builder; `other`
stands for the remaining table kinds, which `Insertion::build` rejects with
`WrongTableKind`. -/
inductive TableInfo
  | node (n : NodeInfo)
  | edge (e : EdgeInfo)
  | assoc (a : AssocInfo)
  | other (name : String) (tid : TableId)
deriving DecidableEq, Repr

/-- The table id of a reified table (`TableInfo::table_id`). -/
def TableInfo.table_id : TableInfo → TableId
  | .node n => n.tid
  | .edge e => e.tid
  | .assoc a => a.tid
  | .other _ tid => tid

/-- The name of a reified table (`TableInfo::table_name`). -/
def TableInfo.table_name : TableInfo → String
  | .node n => n.name
  | .edge e => e.name
  | .assoc a => a.name
  | .other nm _ => nm

/-- The ddl context consulted by the insertion operator, holding the reified
tables of the session.  Modelled from the spec: `context.rs` and
`ddl/reify.rs` are not among the sources. -/
structure TempDbContext where
  tables : List TableInfo
deriving DecidableEq, Repr

/-- Modelled from the spec: `resolve_table(name)` maps a table name to its
id. -/
def TempDbContext.resolve_table (ctx : TempDbContext) (name : String) :
    Option TableId :=
  (ctx.tables.find? (fun t => t.table_name == name)).map TableInfo.table_id

/-- Modelled from the spec: `table_by_id` fetches the reified info of a
table id, failing when no such table exists. -/
def TempDbContext.table_by_id (ctx : TempDbContext) (tid : TableId) :
    Except InsertError TableInfo :=
  match ctx.tables.find? (fun t => t.table_id == tid) with
  | some t => .ok t
  | none => .error (.MissingEntry tid)

/-- Modelled from the spec: `get_table_info` is the same id lookup used by
the key-builder compiler. -/
def TempDbContext.get_table_info (ctx : TempDbContext) (tid : TableId) :
    Except InsertError TableInfo :=
  ctx.table_by_id tid

/-- Modelled from the spec: `assocs_by_main_id` returns all associations
whose `src_id` equals the given main id, in context order. -/
def TempDbContext.assocs_by_main_id (ctx : TempDbContext) (mid : TableId) :
    List AssocInfo :=
  ctx.tables.filterMap (fun t =>
    match t with
    | .assoc a => if a.src_id == mid then some a else none
    | _ => none)

/-- `TableInfo::into_node`: succeed only on node infos. -/
def TableInfo.into_node : TableInfo → Except InsertError NodeInfo
  | .node n => .ok n
  | t => .error (.NotANode t.table_id)

/-! ## The insertion builder: chain resolution (`Insertion::build`) -/

/-- Embeds the chain-classification loop of `Insertion::build` (insert.rs
lines 58 to 67): resolve each name, fetch its info, and push it onto the
association or main list; other table kinds fail with `WrongTableKind`. -/
def classifyChain (ctx : TempDbContext) :
    List String → Except InsertError (List AssocInfo × List TableInfo)
  | [] => .ok ([], [])
  | name :: rest =>
    match ctx.resolve_table name with
    | none => .error (.TableNotFound name)
    | some tid =>
      match ctx.table_by_id tid with
      | .error e => .error e
      | .ok info =>
        match info with
        | .assoc a => (classifyChain ctx rest).map (fun p => (a :: p.1, p.2))
        | .node n =>
          (classifyChain ctx rest).map (fun p => (p.1, .node n :: p.2))
        | .edge e =>
          (classifyChain ctx rest).map (fun p => (p.1, .edge e :: p.2))
        | .other _ _ => .error (.WrongTableKind tid)

/-- Embeds the chain-processing part of `Insertion::build` (insert.rs lines
56 to 86): classify the chain, require exactly one main, set the
association list from `assocs_by_main_id` of the main's id (as the source
does, discarding the explicitly listed associations), then run the
`NoAssociation` validation over that list. -/
def insertionBuildChain (ctx : TempDbContext) (chain_el_names : List String) :
    Except InsertError (TableInfo × List AssocInfo) :=
  match classifyChain ctx chain_el_names with
  | .error e => .error e
  | .ok (_explicitAssocs, mains) =>
    match mains with
    | [main] =>
      let assocs := ctx.assocs_by_main_id main.table_id
      let main_id := main.table_id
      match assocs.find? (fun a => !(a.src_id == main_id)) with
      | some a => .error (.NoAssociation a.name main.table_name)
      | none => .ok (main, assocs)
    | _ => .error .WrongSpecification

/-! ## Extractors and key builders -/

/-- An extractor: evaluates one column of the output against an input row.
Modelled from the spec: the expression language and `make_extractor` are
not among the sources, so extractors are embedded semantically as
evaluation functions. -/
abbrev Extractor (ρ : Type) : Type :=
  ρ → Except InsertError Val

/-- The partially evaluated extract map: column name to extractor.
Modelled from the spec. -/
structure ExtractMap (ρ : Type) where
  entries : List (String × Extractor ρ)

/-- Look a column name up in the extract map (first match). -/
def ExtractMap.lookup (em : ExtractMap ρ) (name : String) :
    Option (Extractor ρ) :=
  (em.entries.find? (fun p => p.1 == name)).map Prod.snd

/-- Modelled from the spec: `make_extractor` yields the evaluation closure
for one target column, failing at evaluation time when the extract map has
no entry for it. -/
def ColSpec.make_extractor (c : ColSpec) (em : ExtractMap ρ) : Extractor ρ :=
  match em.lookup c.name with
  | some f => f
  | none => fun _ => .error (.EvalFailed c.name)

/-- A constant extractor, as used for the leading boolean of the edge key
builders (`Expr::Const` in `make_key_builders`). -/
def constExtractor (v : Val) : Extractor ρ :=
  fun _ => .ok v

/-- A builder: the ordered extractors producing one tuple. -/
abbrev Builder (ρ : Type) : Type := List (Extractor ρ)

/-- Evaluate the extractors of a builder in order, stopping at the first
failure (the `collect` over extractor results inside `eval_to_tuple`). -/
def evalBuilder (builder : Builder ρ) (row : ρ) :
    Except InsertError (List Val) :=
  match builder with
  | [] => .ok []
  | f :: rest =>
    match f row with
    | .error e => .error e
    | .ok v =>
      match evalBuilder rest row with
      | .error e => .error e
      | .ok vs => .ok (v :: vs)

/-- Embeds `eval_to_tuple`: evaluate every extractor of the builder against
the row and assemble the tuple under the given discriminator. -/
def eval_to_tuple (pfx : Nat) (builder : Builder ρ) (row : ρ) :
    Except InsertError Tuple :=
  match evalBuilder builder row with
  | .error e => .error e
  | .ok data => .ok ⟨pfx, data⟩

/-- Embeds `make_key_builders` (insert.rs lines 238 to 284): for a node,
key and value builders from its columns; for an edge, a forward key builder
`[const TRUE] ++ src.keys ++ dst.keys ++ edge.keys`, an inverse key builder
`[const FALSE] ++ dst.keys ++ src.keys ++ edge.keys`, and a value builder
from `edge.vals`.  The `unreachable!()` arm is modelled as an error. -/
def make_key_builders (ctx : TempDbContext) (target_info : TableInfo)
    (em : ExtractMap ρ) :
    Except InsertError (Builder ρ × Builder ρ × Option (Builder ρ)) :=
  match target_info with
  | .node n =>
    .ok (n.keys.map (fun v => v.make_extractor em),
      n.vals.map (fun v => v.make_extractor em), none)
  | .edge e =>
    match ctx.get_table_info e.src_id with
    | .error er => .error er
    | .ok si =>
      match si.into_node with
      | .error er => .error er
      | .ok src =>
        match ctx.get_table_info e.dst_id with
        | .error er => .error er
        | .ok di =>
          match di.into_node with
          | .error er => .error er
          | .ok dst =>
            let key_builder : Builder ρ :=
              constExtractor (.bool true) ::
                (src.keys.map (fun v => v.make_extractor em) ++
                  dst.keys.map (fun v => v.make_extractor em) ++
                  e.keys.map (fun v => v.make_extractor em))
            let inv_key_builder : Builder ρ :=
              constExtractor (.bool false) ::
                (dst.keys.map (fun v => v.make_extractor em) ++
                  src.keys.map (fun v => v.make_extractor em) ++
                  e.keys.map (fun v => v.make_extractor em))
            let val_builder : Builder ρ :=
              e.vals.map (fun v => v.make_extractor em)
            .ok (key_builder, val_builder, some inv_key_builder)
  | _ => .error .UnreachableKind

/-- The per-association value builders compiled before iteration
(insert.rs lines 150 to 162): each association contributes its table id and
the extractors of its value columns. -/
def assocValBuilders (assoc_infos : List AssocInfo) (em : ExtractMap ρ) :
    List (TableId × Builder ρ) :=
  assoc_infos.map (fun info =>
    (info.tid, info.vals.map (fun v => v.make_extractor em)))

/-! ## Stores and the per-row mutation step (`Insertion::iter`) -/

/-- A sorted key-value store, modelled from the spec as a finite map from
key tuples to value tuples (association list, first match wins, `put`
overwrites). -/
abbrev Store : Type := List (Tuple × Tuple)

/-- `get`: true iff the key exists; here it returns the stored value. -/
def Store.getVal (s : Store) (k : Tuple) : Option Tuple :=
  (s.find? (fun p => p.1 == k)).map Prod.snd

/-- `put`: write a key-value pair, overwriting any existing entry. -/
def Store.putKV (s : Store) (k v : Tuple) : Store :=
  (k, v) :: s.filter (fun p => !(p.1 == k))

/-- The two store handles visible to the iterator: the transaction and the
temporary store (spec section 6). -/
structure DbState where
  txn : Store
  temp : Store
deriving DecidableEq, Repr

/-- Which store a write goes to. -/
inductive StoreTag
  | txn
  | temp
deriving DecidableEq, Repr

/-- Store routing per record: the transactional store when the target is in
the root, the temporary store otherwise. -/
def storeTag (r : Bool) : StoreTag :=
  if r then .txn else .temp

/-- One write issued by the iterator. -/
structure WriteOp where
  tag : StoreTag
  key : Tuple
  val : Tuple
deriving DecidableEq, Repr

/-- The collision probe of `Insertion::iter` (insert.rs lines 182 to 186):
read the destination store chosen by `in_root` at the given key. -/
def DbState.probe (st : DbState) (r : Bool) (k : Tuple) : Option Tuple :=
  if r then st.txn.getVal k else st.temp.getVal k

/-- Apply one write to the pair of stores. -/
def DbState.applyOp (st : DbState) (w : WriteOp) : DbState :=
  match w.tag with
  | .txn => { st with txn := st.txn.putKV w.key w.val }
  | .temp => { st with temp := st.temp.putKV w.key w.val }

/-- Apply a write log in order. -/
def DbState.applyLog (st : DbState) (ws : List WriteOp) : DbState :=
  ws.foldl DbState.applyOp st

/-- One output row of a relational operator: keys then values. -/
structure TupleSet where
  keys : List Tuple
  vals : List Tuple
deriving DecidableEq, Repr

/-- Embeds the association loop of `Insertion::iter` (insert.rs lines 206
to 218): for each association in declared order, evaluate its value under
the `DataKind::Data` discriminator, rewrite the working key's discriminator
to the association's table id, and record the write routed by the
association's `in_root` flag.  Returns the final working key, the writes
issued (writes before a failing evaluation persist), and the collected
association values. -/
def assocWrites (row : ρ) :
    Tuple → List (TableId × Builder ρ) →
    Tuple × List WriteOp × Except InsertError (List Tuple)
  | key, [] => (key, [], .ok [])
  | key, (tid, b) :: rest =>
    match eval_to_tuple DataKindData b row with
    | .error e => (key, [], .error e)
    | .ok ret =>
      let key1 := key.overwritePfx tid.id
      let w : WriteOp := ⟨storeTag tid.in_root, key1, ret⟩
      match assocWrites row key1 rest with
      | (kf, ws, res) => (kf, w :: ws, res.map (fun l => ret :: l))

/-- The association values of one row, evaluated in declared order under
the `DataKind::Data` discriminator (the value evaluations of the
association loop, separated from the writes). -/
def evalAssocVals (avbs : List (TableId × Builder ρ)) (row : ρ) :
    Except InsertError (List Tuple) :=
  match avbs with
  | [] => .ok []
  | (_, b) :: rest =>
    match eval_to_tuple DataKindData b row with
    | .error e => .error e
    | .ok t =>
      match evalAssocVals rest row with
      | .error e => .error e
      | .ok ts => .ok (t :: ts)

/-- The inverse-index step of `Insertion::iter` (insert.rs lines 196 to
205): when an inverse key builder is present (the main is an edge), the
inverse key is evaluated under the same table-id discriminator and the
forward key tuple is written as its value. -/
def evalInvW (target_key : TableId) (inv_key_builder : Option (Builder ρ))
    (row : ρ) (key : Tuple) : Except InsertError (List WriteOp) :=
  match inv_key_builder with
  | none => .ok []
  | some b =>
    match eval_to_tuple target_key.id b row with
    | .error e => .error e
    | .ok inv_key => .ok [⟨storeTag target_key.in_root, inv_key, key⟩]

/-- Embeds the per-row body of `Insertion::iter` (insert.rs lines 172 to
228): evaluate the main key (discriminator `target_key.id`) and value
(discriminator `DataKind::Data`); when not upserting, probe the destination
store and fail with `KeyConflict` before any write if the key exists; write
the main record; for an edge, evaluate the inverse key (same discriminator)
and write the forward key tuple as its value; run the association loop;
restore the working key's discriminator to the main id; emit the tuple set
with the main key and the main value followed by the association values.
Returns the ordered write log next to the result, so that writes preceding
a failure stay visible. -/
def insertRow (upsert : Bool) (target_key : TableId)
    (key_builder val_builder : Builder ρ)
    (inv_key_builder : Option (Builder ρ))
    (assoc_val_builders : List (TableId × Builder ρ))
    (st : DbState) (row : ρ) :
    List WriteOp × Except InsertError TupleSet :=
  match eval_to_tuple target_key.id key_builder row with
  | .error e => ([], .error e)
  | .ok key =>
    match eval_to_tuple DataKindData val_builder row with
    | .error e => ([], .error e)
    | .ok val =>
      if !upsert && (st.probe target_key.in_root key).isSome then
        ([], .error (.KeyConflict key))
      else
        match evalInvW target_key inv_key_builder row key with
        | .error e => ([⟨storeTag target_key.in_root, key, val⟩], .error e)
        | .ok invWs =>
          match assocWrites row key assoc_val_builders with
          | (_, ws, .error e) =>
            (⟨storeTag target_key.in_root, key, val⟩ :: invWs ++ ws, .error e)
          | (kf, ws, .ok assoc_vals) =>
            (⟨storeTag target_key.in_root, key, val⟩ :: invWs ++ ws,
              .ok { keys := [kf.overwritePfx target_key.id]
                    vals := val :: assoc_vals })

/-! ## Concrete instances used by the witnesses and counterexamples -/

/-- A node table `N` with one key column and one value column. -/
def c1Node : NodeInfo :=
  { tid := ⟨.Global, 0⟩, name := "N", keys := [⟨"id"⟩], vals := [⟨"name"⟩] }

/-- An association `A` attached to `N`. -/
def c1AssocA : AssocInfo :=
  { tid := ⟨.Global, 1⟩, src_id := ⟨.Global, 0⟩, name := "A", vals := [⟨"x"⟩] }

/-- A second association `B` attached to `N`. -/
def c1AssocB : AssocInfo :=
  { tid := ⟨.Global, 2⟩, src_id := ⟨.Global, 0⟩, name := "B", vals := [⟨"y"⟩] }

/-- A context holding `N` with its two associations. -/
def c1Ctx : TempDbContext :=
  ⟨[.node c1Node, .assoc c1AssocA, .assoc c1AssocB]⟩

/-- The `Int` typing entry. -/
def c2IntTyping : Structured := .typing (.base "Int")

/-- An environment whose root scope is empty and whose current scope holds
the `Int` typing. -/
def c2Env : StructuredEnv :=
  { root := ⟨[]⟩, subscopes := [⟨[("Int", c2IntTyping)]⟩]
    next_global_id := 0, next_local_id := 0 }

/-- A schema fragment carrying the global scope marker: a `Person` node with
a single key column. -/
def c2Frag : DefFrag :=
  { is_local_marker := false
    defn := .nodeDef { name := "Person", cols := [⟨true, "id", .simple false "Int", false⟩] } }

/-- The node that processing `c2Frag` registers. -/
def c2Node : Node :=
  { id := ⟨.Global, 0⟩, keys := [⟨"id", .base "Int", none⟩], cols := []
    out_e := [], in_e := [], attached := [] }

/-- A scope holding only the `String` typing. -/
def c8Item : StructuredEnvItem := ⟨[("String", .typing (.base "String"))]⟩

/-- A node fragment with a single column and no key marker. -/
def c8Frag : NodeDefFrag :=
  { name := "Person", cols := [⟨false, "name", .simple false "String", false⟩] }

/-- A global node used as edge endpoint. -/
def c6NodeG : Node :=
  { id := ⟨.Global, 0⟩, keys := [⟨"id", .base "Int", none⟩], cols := []
    out_e := [], in_e := [], attached := [] }

/-- A local node used as edge endpoint. -/
def c6NodeL : Node :=
  { id := ⟨.Local, 1⟩, keys := [⟨"id", .base "Int", none⟩], cols := []
    out_e := [], in_e := [], attached := [] }

/-- A scope holding one global and one local node. -/
def c6Item : StructuredEnvItem :=
  ⟨[("P", .node c6NodeG .Planned), ("L", .node c6NodeL .Planned)]⟩

/-- An edge fragment from the global node to the local node. -/
def c6Frag : EdgeDefFrag :=
  { src_name := "P", name := "E", dst_name := "L", cols := none }

/-- A scope holding a node named `Person`. -/
def c9Item : StructuredEnvItem :=
  ⟨[("Person", .node c6NodeG .Planned)]⟩

/-- A node fragment reusing the name `Person`. -/
def c9NodeFrag : NodeDefFrag := { name := "Person", cols := [] }

/-- An edge fragment whose own name collides with its endpoint node. -/
def c9EdgeFrag : EdgeDefFrag :=
  { src_name := "Person", name := "Person", dst_name := "Person", cols := none }

/-- An edge fragment between `Person` and itself under a fresh name. -/
def c7Frag : EdgeDefFrag :=
  { src_name := "Person", name := "Friend", dst_name := "Person", cols := none }

def c7ResultItem : StructuredEnvItem :=
  ⟨[("Person", .node
      { id := ⟨.Global, 0⟩, keys := [⟨"id", .base "Int", none⟩], cols := []
        out_e := [⟨.Global, 7⟩], in_e := [⟨.Global, 7⟩], attached := [] }
      .Planned),
    ("Friend", .edge
      { src := ⟨.Global, 0⟩, dst := ⟨.Global, 0⟩, id := ⟨.Global, 7⟩
        keys := [], cols := [] } .Planned)]⟩

/-- A Global main table id used by the insertion witnesses. -/
def c3Target : TableId := ⟨.Global, 7⟩

/-- A key builder producing the constant key cell 1. -/
def c3Kb : Builder Unit := [constExtractor (.int 1)]

/-- A value builder producing one constant value cell. -/
def c3Vb : Builder Unit := [constExtractor (.str "a")]

/-- The main key the witness row evaluates to. -/
def c3Key : Tuple := ⟨7, [.int 1]⟩

/-- A state whose transactional store already holds the main key. -/
def c3St : DbState := ⟨[(⟨7, [.int 1]⟩, ⟨0, [.str "old"]⟩)], []⟩

/-- Source node info of the witness edge. -/
def c4Src : NodeInfo :=
  { tid := ⟨.Global, 0⟩, name := "S", keys := [⟨"sid"⟩], vals := [] }

/-- Destination node info of the witness edge. -/
def c4Dst : NodeInfo :=
  { tid := ⟨.Global, 1⟩, name := "D", keys := [⟨"did"⟩], vals := [] }

/-- The witness edge table. -/
def c4Edge : EdgeInfo :=
  { tid := ⟨.Global, 2⟩, src_id := ⟨.Global, 0⟩, dst_id := ⟨.Global, 1⟩
    name := "E", keys := [], vals := [⟨"w"⟩] }

/-- A context holding the witness edge and its endpoint nodes. -/
def c4Ctx : TempDbContext := ⟨[.node c4Src, .node c4Dst, .edge c4Edge]⟩

/-- An extract map binding the three columns to constants. -/
def c4Em : ExtractMap Unit :=
  ⟨[("sid", fun _ => .ok (.int 1)), ("did", fun _ => .ok (.int 2)),
    ("w", fun _ => .ok (.int 9))]⟩

/-- The forward key builder the compiler produces for the witness edge. -/
def c4Kb : Builder Unit :=
  constExtractor (.bool true) ::
    (c4Src.keys.map (fun v => v.make_extractor c4Em) ++
      c4Dst.keys.map (fun v => v.make_extractor c4Em) ++
      c4Edge.keys.map (fun v => v.make_extractor c4Em))

/-- The inverse key builder the compiler produces for the witness edge. -/
def c4Ikb : Builder Unit :=
  constExtractor (.bool false) ::
    (c4Dst.keys.map (fun v => v.make_extractor c4Em) ++
      c4Src.keys.map (fun v => v.make_extractor c4Em) ++
      c4Edge.keys.map (fun v => v.make_extractor c4Em))

/-- The value builder the compiler produces for the witness edge. -/
def c4Vb : Builder Unit := c4Edge.vals.map (fun v => v.make_extractor c4Em)

/-- The forward key of the witness edge row. -/
def c4K : Tuple := ⟨2, [.bool true, .int 1, .int 2]⟩

/-- The inverse key of the witness edge row. -/
def c4Ik : Tuple := ⟨2, [.bool false, .int 2, .int 1]⟩

/-- The payload of the witness edge row. -/
def c4V : Tuple := ⟨0, [.int 9]⟩

/-- The table id of the witness association. -/
def c5Assoc : TableId := ⟨.Global, 9⟩

/-- One association value builder producing a constant cell. -/
def c5Avbs : List (TableId × Builder Unit) :=
  [(c5Assoc, [constExtractor (.str "t")])]

/-- A state already holding a record at the inverse key. -/
def c10St : DbState := ⟨[(c4Ik, ⟨0, [.str "old"]⟩)], []⟩

/-! ## Theorems -/

/-- `build_name_in_def` succeeds exactly on the unreserved names and returns
the name unchanged. -/
theorem build_name_in_def_ok (n m : String)
    (h : build_name_in_def n true = .ok m) :
    m = n ∧ startsWithUnderscore n = false := by
  unfold build_name_in_def at h
  by_cases hu : startsWithUnderscore n = true
  · simp [hu] at h
  · simp at hu
    simp [hu] at h
    exact ⟨h.symm, hu⟩

/-- Resolution step: a matching head binding resolves immediately. -/
theorem resolve_cons_pos (k m : String) (v : Structured)
    (rest : List (String × Structured)) (hk : (k == m) = true) :
    StructuredEnvItem.resolve ⟨(k, v) :: rest⟩ m = some v := by
  simp [StructuredEnvItem.resolve, List.find?_cons, hk]

/-- Resolution step: a non-matching head binding is skipped. -/
theorem resolve_cons_neg (k m : String) (v : Structured)
    (rest : List (String × Structured)) (hk : (k == m) = false) :
    StructuredEnvItem.resolve ⟨(k, v) :: rest⟩ m =
      StructuredEnvItem.resolve ⟨rest⟩ m := by
  simp [StructuredEnvItem.resolve, List.find?_cons, hk]

/-- Resolution in a scope extended on the right is unchanged for names that
already resolve. -/
theorem resolve_append_of_isSome (l laux : List (String × Structured))
    (m : String)
    (h : (StructuredEnvItem.resolve ⟨l⟩ m).isSome = true) :
    StructuredEnvItem.resolve ⟨l ++ laux⟩ m =
      StructuredEnvItem.resolve ⟨l⟩ m := by
  induction l with
  | nil => simp [StructuredEnvItem.resolve] at h
  | cons p rest ih =>
    obtain ⟨k, v⟩ := p
    by_cases hk : (k == m) = true
    · rw [List.cons_append, resolve_cons_pos k m v (rest ++ laux) hk,
        resolve_cons_pos k m v rest hk]
    · rw [Bool.not_eq_true] at hk
      rw [resolve_cons_neg k m v rest hk] at h
      rw [List.cons_append, resolve_cons_neg k m v (rest ++ laux) hk,
        resolve_cons_neg k m v rest hk]
      exact ih h

/-- Resolution in a scope extended on the right falls through to the
extension for names that do not resolve in the left part. -/
theorem resolve_append_of_none (l laux : List (String × Structured))
    (m : String)
    (h : StructuredEnvItem.resolve ⟨l⟩ m = none) :
    StructuredEnvItem.resolve ⟨l ++ laux⟩ m =
      StructuredEnvItem.resolve ⟨laux⟩ m := by
  induction l with
  | nil => simp
  | cons p rest ih =>
    obtain ⟨k, v⟩ := p
    by_cases hk : (k == m) = true
    · rw [resolve_cons_pos k m v rest hk] at h
      exact absurd h (by simp)
    · rw [Bool.not_eq_true] at hk
      rw [resolve_cons_neg k m v rest hk] at h
      rw [List.cons_append, resolve_cons_neg k m v (rest ++ laux) hk]
      exact ih h

/-- `updateFirst` changes what the updated name resolves to, provided the
name was bound. -/
theorem resolve_updateFirst_self (l : List (String × Structured))
    (name : String) (s : Structured)
    (h : (StructuredEnvItem.resolve ⟨l⟩ name).isSome = true) :
    StructuredEnvItem.resolve ⟨updateFirst l name s⟩ name = some s := by
  induction l with
  | nil => simp [StructuredEnvItem.resolve] at h
  | cons p rest ih =>
    obtain ⟨k, v⟩ := p
    by_cases hk : (k == name) = true
    · unfold updateFirst
      rw [if_pos hk]
      exact resolve_cons_pos k name s rest hk
    · rw [Bool.not_eq_true] at hk
      rw [resolve_cons_neg k name v rest hk] at h
      unfold updateFirst
      rw [if_neg (by simp [hk])]
      rw [resolve_cons_neg k name v (updateFirst rest name s) hk]
      exact ih h

/-- `updateFirst` leaves the resolution of other names unchanged. -/
theorem resolve_updateFirst_other (l : List (String × Structured))
    (name m : String) (s : Structured) (hne : m ≠ name) :
    StructuredEnvItem.resolve ⟨updateFirst l name s⟩ m =
      StructuredEnvItem.resolve ⟨l⟩ m := by
  induction l with
  | nil => rfl
  | cons p rest ih =>
    obtain ⟨k, v⟩ := p
    by_cases hk : (k == name) = true
    · have hkname : k = name := by simpa using hk
      have hkm : (k == m) = false := by
        simp [hkname]
        exact fun hc => hne hc.symm
      unfold updateFirst
      rw [if_pos hk]
      rw [resolve_cons_neg k m s rest hkm, resolve_cons_neg k m v rest hkm]
    · rw [Bool.not_eq_true] at hk
      unfold updateFirst
      rw [if_neg (by simp [hk])]
      by_cases hkm : (k == m) = true
      · rw [resolve_cons_pos k m v (updateFirst rest name s) hkm,
          resolve_cons_pos k m v rest hkm]
      · rw [Bool.not_eq_true] at hkm
        rw [resolve_cons_neg k m v (updateFirst rest name s) hkm,
          resolve_cons_neg k m v rest hkm]
        exact ih

/-- `build_name_in_def` acts as the identity on unreserved names. -/
theorem build_name_in_def_of_ok (n : String)
    (h : startsWithUnderscore n = false) :
    build_name_in_def n true = .ok n := by
  simp [build_name_in_def, h]

/-- Success shape of `build_edge_def`: when both endpoints resolve to
nodes, the scoping condition passes, the columns build, and the edge name
is fresh, the call succeeds and the final scope maps the edge name to the
registered edge and each endpoint name to a node carrying the new edge id
in the appropriate back-reference list. -/
theorem build_edge_def_ok_shape (it : StructuredEnvItem) (f : EdgeDefFrag)
    (tid : TableId) (sn dn : Node) (s1 s2 : StorageStatus) (ks cs : List Col)
    (hsu : startsWithUnderscore f.src_name = false)
    (hnu : startsWithUnderscore f.name = false)
    (hdu : startsWithUnderscore f.dst_name = false)
    (hs : it.resolve f.src_name = some (.node sn s1))
    (hd : it.resolve f.dst_name = some (.node dn s2))
    (hcompat : (tid.persistence == Persistence.Global &&
      (sn.id.persistence == Persistence.Local ||
        dn.id.persistence == Persistence.Local)) = false)
    (hcols : edgeColDefs it f.cols = .ok (ks, cs))
    (hfresh : it.resolve f.name = none) :
    ∃ it3 : StructuredEnvItem,
      build_edge_def it f tid = (it3, .ok ()) ∧
      it3.resolve f.name =
        some (.edge ⟨sn.id, dn.id, tid, ks, cs⟩ .Planned) ∧
      (∃ sn2 st, it3.resolve f.src_name = some (.node sn2 st) ∧
        sn2.id = sn.id ∧ tid ∈ sn2.out_e) ∧
      (∃ dn2 st, it3.resolve f.dst_name = some (.node dn2 st) ∧
        dn2.id = dn.id ∧ tid ∈ dn2.in_e) := by
  have hnsrc : f.name ≠ f.src_name := by
    intro hc
    rw [hc, hs] at hfresh
    exact absurd hfresh (by simp)
  have hndst : f.name ≠ f.dst_name := by
    intro hc
    rw [hc, hd] at hfresh
    exact absurd hfresh (by simp)
  have hfreshb : (it.resolve f.name).isSome = false := by rw [hfresh]; rfl
  have hfresh' : StructuredEnvItem.resolve ⟨it.bindings⟩ f.name = none :=
    hfresh
  have hsSome : (StructuredEnvItem.resolve ⟨it.bindings⟩ f.src_name).isSome
      = true := by
    have hs' : StructuredEnvItem.resolve ⟨it.bindings⟩ f.src_name =
        some (.node sn s1) := hs
    rw [hs']
    rfl
  have hdSome : (StructuredEnvItem.resolve ⟨it.bindings⟩ f.dst_name).isSome
      = true := by
    have hd' : StructuredEnvItem.resolve ⟨it.bindings⟩ f.dst_name =
        some (.node dn s2) := hd
    rw [hd']
    rfl
  by_cases hdd : f.dst_name = f.src_name
  · rw [hdd] at hd
    rw [hs] at hd
    have hdn1 : sn = dn := by
      have h0 := hd
      simp at h0
      exact h0
    have hdn2 : s1 = s2 := by cases s1; cases s2; rfl
    subst hdn1
    subst hdn2
    have happ1 : StructuredEnvItem.resolve
        ⟨it.bindings ++
          [(f.name, Structured.edge
            { src := sn.id, dst := sn.id, id := tid, keys := ks, cols := cs }
            .Planned)]⟩ f.src_name = some (.node sn s1) := by
      rw [resolve_append_of_isSome it.bindings _ f.src_name hsSome]
      exact hs
    have happ1some : (StructuredEnvItem.resolve
        ⟨it.bindings ++
          [(f.name, Structured.edge
            { src := sn.id, dst := sn.id, id := tid, keys := ks, cols := cs }
            .Planned)]⟩ f.src_name).isSome = true := by
      rw [happ1]
      rfl
    have happ2 : StructuredEnvItem.resolve
        ⟨updateFirst
          (it.bindings ++
            [(f.name, Structured.edge
              { src := sn.id, dst := sn.id, id := tid, keys := ks, cols := cs }
              .Planned)])
          f.src_name
          (Structured.node { sn with out_e := sn.out_e ++ [tid] } s1)⟩
        f.src_name =
        some (Structured.node { sn with out_e := sn.out_e ++ [tid] } s1) :=
      resolve_updateFirst_self _ f.src_name _ happ1some
    have happ2some : (StructuredEnvItem.resolve
        ⟨updateFirst
          (it.bindings ++
            [(f.name, Structured.edge
              { src := sn.id, dst := sn.id, id := tid, keys := ks, cols := cs }
              .Planned)])
          f.src_name
          (Structured.node { sn with out_e := sn.out_e ++ [tid] } s1)⟩
        f.src_name).isSome = true := by
      rw [happ2]
      rfl
    unfold build_edge_def
    rw [build_name_in_def_of_ok f.src_name hsu,
      build_name_in_def_of_ok f.name hnu,
      build_name_in_def_of_ok f.dst_name hdu]
    rw [hdd]
    simp only [hs, hcompat, Bool.false_eq_true, if_false, hcols,
      StructuredEnvItem.define_new, hfreshb, if_true, happ1, happ2]
    refine ⟨_, rfl, ?_, ?_, ?_⟩
    · rw [resolve_updateFirst_other _ _ _ _ hnsrc,
        resolve_updateFirst_other _ _ _ _ hnsrc,
        resolve_append_of_none it.bindings _ f.name hfresh',
        resolve_cons_pos f.name f.name _ [] (by simp)]
    · refine ⟨_, s1, resolve_updateFirst_self _ f.src_name _ happ2some,
        rfl, by simp⟩
    · refine ⟨_, s1, resolve_updateFirst_self _ f.src_name _ happ2some,
        rfl, by simp⟩
  · have hdsne : f.dst_name ≠ f.src_name := hdd
    have hsdne : f.src_name ≠ f.dst_name := fun hc => hdd hc.symm
    have happ1 : StructuredEnvItem.resolve
        ⟨it.bindings ++
          [(f.name, Structured.edge
            { src := sn.id, dst := dn.id, id := tid, keys := ks, cols := cs }
            .Planned)]⟩ f.src_name = some (.node sn s1) := by
      rw [resolve_append_of_isSome it.bindings _ f.src_name hsSome]
      exact hs
    have happ1some : (StructuredEnvItem.resolve
        ⟨it.bindings ++
          [(f.name, Structured.edge
            { src := sn.id, dst := dn.id, id := tid, keys := ks, cols := cs }
            .Planned)]⟩ f.src_name).isSome = true := by
      rw [happ1]
      rfl
    have happD : StructuredEnvItem.resolve
        ⟨updateFirst
          (it.bindings ++
            [(f.name, Structured.edge
              { src := sn.id, dst := dn.id, id := tid, keys := ks, cols := cs }
              .Planned)])
          f.src_name
          (Structured.node { sn with out_e := sn.out_e ++ [tid] } s1)⟩
        f.dst_name = some (.node dn s2) := by
      rw [resolve_updateFirst_other _ _ _ _ hdsne,
        resolve_append_of_isSome it.bindings _ f.dst_name hdSome]
      exact hd
    have happDsome : (StructuredEnvItem.resolve
        ⟨updateFirst
          (it.bindings ++
            [(f.name, Structured.edge
              { src := sn.id, dst := dn.id, id := tid, keys := ks, cols := cs }
              .Planned)])
          f.src_name
          (Structured.node { sn with out_e := sn.out_e ++ [tid] } s1)⟩
        f.dst_name).isSome = true := by
      rw [happD]
      rfl
    unfold build_edge_def
    rw [build_name_in_def_of_ok f.src_name hsu,
      build_name_in_def_of_ok f.name hnu,
      build_name_in_def_of_ok f.dst_name hdu]
    simp only [hs, hd, hcompat, Bool.false_eq_true, if_false, hcols,
      StructuredEnvItem.define_new, hfreshb, if_true, happ1, happD]
    refine ⟨_, rfl, ?_, ?_, ?_⟩
    · rw [resolve_updateFirst_other _ _ _ _ hndst,
        resolve_updateFirst_other _ _ _ _ hnsrc,
        resolve_append_of_none it.bindings _ f.name hfresh',
        resolve_cons_pos f.name f.name _ [] (by simp)]
    · refine ⟨{ sn with out_e := sn.out_e ++ [tid] }, s1, ?_, rfl, by simp⟩
      rw [resolve_updateFirst_other _ _ _ _ hsdne]
      exact resolve_updateFirst_self _ f.src_name _ happ1some
    · refine ⟨_, s2, resolve_updateFirst_self _ f.dst_name _ happDsome,
        rfl, by simp⟩

/-- C1: the claim states that when the insertion chain lists associations
explicitly, exactly those are attached (each validated against the main's
id), with automatic attachment only when none were listed.  The source
instead overwrites the collected list with `assocs_by_main_id`
unconditionally: with associations `A` and `B` both attached to `N`, the
chain `[N, A]` yields the attached list `[A, B]`, not `[A]`. -/
theorem c1_explicit_assocs_discarded :
    insertionBuildChain c1Ctx ["N", "A"] =
      .ok (.node c1Node, [c1AssocA, c1AssocB]) := by
  rfl

/-- C2: the claim states that a definition carrying the global marker is
registered in the root scope and one carrying the local marker in the
current scope.  The source selects `root_mut()` when the marker is local
and `cur_mut()` when it is global: processing the global-marked fragment
`c2Frag` on an environment with a nested current scope registers the node
in the current scope, leaving the root scope empty (the allocated TableId
is Global, matching the marker). -/
theorem c2_global_def_lands_in_current_scope :
    build_table c2Env [c2Frag] =
      ({ root := ⟨[]⟩
         subscopes := [⟨[("Int", c2IntTyping), ("Person", .node c2Node .Planned)]⟩]
         next_global_id := 1, next_local_id := 0 }, .ok ()) := by
  rfl

/-- Counterexample for C8: a node fragment whose single column carries no
key marker is accepted by `build_node_def` and registered with an empty
`keys` list, contradicting the claim that such a fragment is not
accepted. -/
theorem c8_counterexample :
    build_node_def c8Item c8Frag ⟨.Global, 0⟩ =
      (⟨[("String", .typing (.base "String")),
         ("Person", .node ⟨⟨.Global, 0⟩, [],
           [⟨"name", .base "String", none⟩], [], [], []⟩ .Planned)]⟩,
        .ok ()) := by
  rfl

/-- The key component returned by `build_col_entry` is the fragment's key
marker. -/
theorem build_col_entry_key (it : StructuredEnvItem) (f : ColEntryFrag)
    (p : Col × Bool) (h : build_col_entry it f = .ok p) : p.2 = f.is_key := by
  unfold build_col_entry at h
  split at h
  · exact absurd h (by simp)
  · split at h
    · exact absurd h (by simp)
    · split at h
      · exact absurd h (by simp)
      · simp at h
        simp [← h]

/-- When no entry of the column block carries a key marker, `build_col_defs`
returns an empty key list. -/
theorem build_col_defs_no_keys (it : StructuredEnvItem)
    (fs : List ColEntryFrag) (ks cs : List Col)
    (hnone : ∀ c ∈ fs, c.is_key = false)
    (h : build_col_defs it fs = .ok (ks, cs)) : ks = [] := by
  induction fs generalizing ks cs with
  | nil =>
    unfold build_col_defs at h
    simp at h
    exact h.1
  | cons f rest ih =>
    unfold build_col_defs at h
    split at h
    · exact absurd h (by simp)
    case _ col k hce =>
      split at h
      · exact absurd h (by simp)
      case _ keys cols hcd =>
        have hk : k = f.is_key := build_col_entry_key it f (col, k) hce
        have hf : f.is_key = false := hnone f (by simp)
        have hrest : keys = [] :=
          ih keys cols (fun c hc => hnone c (by simp [hc])) hcd
        rw [hk, hf] at h
        simp at h
        rw [← h.1, hrest]

/-- C8 (amended): `build_col_defs` partitions columns by key marker
preserving order, and `build_node_def` registers the node regardless of
whether any column is key-marked: a node fragment with no key-marked
columns is accepted and its registered definition has an empty keys
list. -/
theorem c8_node_with_no_key_columns_accepted (it : StructuredEnvItem)
    (f : NodeDefFrag) (tid : TableId) (ks cs : List Col)
    (hname : startsWithUnderscore f.name = false)
    (hcols : build_col_defs it f.cols = .ok (ks, cs))
    (hnokeys : ∀ c ∈ f.cols, c.is_key = false)
    (hfresh : it.resolve f.name = none) :
    build_node_def it f tid =
      (⟨it.bindings ++
          [(f.name, .node ⟨tid, [], cs, [], [], []⟩ .Planned)]⟩, .ok ()) := by
  have hks : ks = [] := build_col_defs_no_keys it f.cols ks cs hnokeys hcols
  unfold build_node_def
  rw [show build_name_in_def f.name true = .ok f.name from by
    simp [build_name_in_def, hname]]
  rw [hcols]
  simp [StructuredEnvItem.define_new, hfresh, hks]

/-- Witness for C8's amended theorem: the concrete keyless fragment from the
counterexample input, registered with empty keys. -/
theorem c8_witness :
    build_node_def c8Item c8Frag ⟨.Local, 3⟩ =
      (⟨[("String", .typing (.base "String")),
         ("Person", .node ⟨⟨.Local, 3⟩, [],
           [⟨"name", .base "String", none⟩], [], [], []⟩ .Planned)]⟩,
        .ok ()) := by
  exact c8_node_with_no_key_columns_accepted c8Item c8Frag ⟨.Local, 3⟩
    [] [⟨"name", .base "String", none⟩]
    (by rfl) (by rfl) (by decide) (by rfl)

/-- C7: after any successful edge definition, the registered edge's name
resolves to the edge, and the endpoint names resolve to nodes whose ids are
the edge's `src` and `dst` and which hold the edge's id in `out_e` and
`in_e` respectively. -/
theorem c7_edge_backrefs (it it3 : StructuredEnvItem) (f : EdgeDefFrag)
    (tid : TableId)
    (hsucc : build_edge_def it f tid = (it3, .ok ())) :
    ∃ e st, it3.resolve f.name = some (.edge e st) ∧ e.id = tid ∧
      (∃ sn2 st2, it3.resolve f.src_name = some (.node sn2 st2) ∧
        sn2.id = e.src ∧ tid ∈ sn2.out_e) ∧
      (∃ dn2 st2, it3.resolve f.dst_name = some (.node dn2 st2) ∧
        dn2.id = e.dst ∧ tid ∈ dn2.in_e) := by
  have hsucc0 := hsucc
  unfold build_edge_def at hsucc
  split at hsucc
  · exact absurd hsucc (by simp)
  next src_name hname1 =>
    obtain ⟨hseq, hsu⟩ := build_name_in_def_ok _ _ hname1
    subst hseq
    split at hsucc
    · exact absurd hsucc (by simp)
    · exact absurd hsucc (by simp)
    · exact absurd hsucc (by simp)
    next sn s1 hs =>
      split at hsucc
      · exact absurd hsucc (by simp)
      next name hname2 =>
        obtain ⟨hneq, hnu⟩ := build_name_in_def_ok _ _ hname2
        subst hneq
        split at hsucc
        · exact absurd hsucc (by simp)
        next dst_name hname3 =>
          obtain ⟨hdeq, hdu⟩ := build_name_in_def_ok _ _ hname3
          subst hdeq
          split at hsucc
          · exact absurd hsucc (by simp)
          · exact absurd hsucc (by simp)
          · exact absurd hsucc (by simp)
          next dn s2 hd =>
            split at hsucc
            · simp at hsucc
              split at hsucc <;> simp at hsucc
            next ks cs hcols =>
              simp only [] at hsucc
              split at hsucc
              · exact absurd hsucc (by simp)
              next hcond =>
                simp only [Bool.not_eq_true] at hcond
                split at hsucc
                next hdef =>
                  have hfresh : it.resolve f.name = none := by
                    cases hres : it.resolve f.name with
                    | none => rfl
                    | some v =>
                      unfold StructuredEnvItem.define_new at hdef
                      rw [hres] at hdef
                      simp at hdef
                  obtain ⟨it3x, heq, hres1, hres2, hres3⟩ :=
                    build_edge_def_ok_shape it f tid sn dn s1 s2 ks cs
                      hsu hnu hdu hs hd hcond hcols hfresh
                  rw [hsucc0] at heq
                  have hit : it3 = it3x := by
                    have h0 := heq
                    simp at h0
                    exact h0
                  subst hit
                  exact ⟨⟨sn.id, dn.id, tid, ks, cs⟩, .Planned, hres1, rfl,
                    hres2, hres3⟩
                next hdef =>
                  exact absurd hsucc (by simp)

/-- Witness for C7: the concrete `Person -[Friend]-> Person` edge,
registered into the scope that `build_edge_def` produces on it. -/
theorem c7_witness :
    ∃ e st, c7ResultItem.resolve c7Frag.name = some (.edge e st) ∧
      e.id = ⟨.Global, 7⟩ ∧
      (∃ sn2 st2, c7ResultItem.resolve c7Frag.src_name =
        some (.node sn2 st2) ∧ sn2.id = e.src ∧
        (⟨.Global, 7⟩ : TableId) ∈ sn2.out_e) ∧
      (∃ dn2 st2, c7ResultItem.resolve c7Frag.dst_name =
        some (.node dn2 st2) ∧ dn2.id = e.dst ∧
        (⟨.Global, 7⟩ : TableId) ∈ dn2.in_e) :=
  c7_edge_backrefs c9Item c7ResultItem c7Frag ⟨.Global, 7⟩ (by rfl)

/-- C6: an edge whose own TableId is Global fails with `IncompatibleEdge`
when either endpoint node is Local, and an edge whose own TableId is Local
is accepted whatever the endpoints' persistence (given the remaining
build steps succeed). -/
theorem c6_edge_scoping (it : StructuredEnvItem) (f : EdgeDefFrag)
    (tid : TableId) (sn dn : Node) (s1 s2 : StorageStatus)
    (hsu : startsWithUnderscore f.src_name = false)
    (hnu : startsWithUnderscore f.name = false)
    (hdu : startsWithUnderscore f.dst_name = false)
    (hs : it.resolve f.src_name = some (.node sn s1))
    (hd : it.resolve f.dst_name = some (.node dn s2)) :
    (tid.persistence = .Global →
      (sn.id.persistence = .Local ∨ dn.id.persistence = .Local) →
      build_edge_def it f tid = (it, .error .IncompatibleEdge))
    ∧ (tid.persistence = .Local →
      ∀ ks cs, edgeColDefs it f.cols = .ok (ks, cs) →
      it.resolve f.name = none →
      ∃ it3, build_edge_def it f tid = (it3, .ok ())) := by
  constructor
  · intro hG hloc
    unfold build_edge_def
    rw [build_name_in_def_of_ok f.src_name hsu,
      build_name_in_def_of_ok f.name hnu,
      build_name_in_def_of_ok f.dst_name hdu]
    simp only [hs, hd, hG]
    rcases hloc with h | h <;> simp [h]
  · intro hL ks cs hcols hfresh
    have hcompat : (tid.persistence == Persistence.Global &&
        (sn.id.persistence == Persistence.Local ||
          dn.id.persistence == Persistence.Local)) = false := by
      rw [hL]
      rfl
    obtain ⟨it3, heq, _, _, _⟩ :=
      build_edge_def_ok_shape it f tid sn dn s1 s2 ks cs hsu hnu hdu hs hd
        hcompat hcols hfresh
    exact ⟨it3, heq⟩

/-- Witness for C6: the concrete global edge over a local endpoint is
rejected, and the same fragment under a Local id succeeds. -/
theorem c6_witness :
    build_edge_def c6Item c6Frag ⟨.Global, 5⟩ =
      (c6Item, .error .IncompatibleEdge)
    ∧ (build_edge_def c6Item c6Frag ⟨.Local, 5⟩).2 = .ok () := by
  constructor
  · exact (c6_edge_scoping c6Item c6Frag ⟨.Global, 5⟩ c6NodeG c6NodeL
      .Planned .Planned rfl rfl rfl rfl rfl).1 rfl (Or.inr rfl)
  · obtain ⟨it3, heq⟩ := (c6_edge_scoping c6Item c6Frag ⟨.Local, 5⟩ c6NodeG
      c6NodeL .Planned .Planned rfl rfl rfl rfl rfl).2 rfl [] [] rfl rfl
    rw [heq]

/-- C9: defining a node or edge under a name that already resolves in the
target scope fails with `NameConflict` and returns the scope unaltered; in
the edge case no back-references are appended. -/
theorem c9_name_conflict_node_and_edge :
    (∀ (it : StructuredEnvItem) (f : NodeDefFrag) (tid : TableId)
      (ks cs : List Col),
      startsWithUnderscore f.name = false →
      build_col_defs it f.cols = .ok (ks, cs) →
      (it.resolve f.name).isSome = true →
      build_node_def it f tid = (it, .error .NameConflict))
    ∧ (∀ (it : StructuredEnvItem) (f : EdgeDefFrag) (tid : TableId)
      (sn dn : Node) (s1 s2 : StorageStatus) (ks cs : List Col),
      startsWithUnderscore f.src_name = false →
      startsWithUnderscore f.name = false →
      startsWithUnderscore f.dst_name = false →
      it.resolve f.src_name = some (.node sn s1) →
      it.resolve f.dst_name = some (.node dn s2) →
      (tid.persistence == Persistence.Global &&
        (sn.id.persistence == Persistence.Local ||
          dn.id.persistence == Persistence.Local)) = false →
      edgeColDefs it f.cols = .ok (ks, cs) →
      (it.resolve f.name).isSome = true →
      build_edge_def it f tid = (it, .error .NameConflict)) := by
  constructor
  · intro it f tid ks cs hname hcols hdup
    unfold build_node_def
    rw [build_name_in_def_of_ok f.name hname, hcols]
    simp [StructuredEnvItem.define_new, hdup]
  · intro it f tid sn dn s1 s2 ks cs hsu hnu hdu hs hd hcompat hcols hdup
    unfold build_edge_def
    rw [build_name_in_def_of_ok f.src_name hsu,
      build_name_in_def_of_ok f.name hnu,
      build_name_in_def_of_ok f.dst_name hdu]
    simp only [hs, hd, hcompat, Bool.false_eq_true, if_false, hcols,
      StructuredEnvItem.define_new, hdup, if_true]

/-- Witness for C9: redefining `Person` as a node, and as an edge name,
both fail with `NameConflict` leaving the scope unchanged. -/
theorem c9_witness :
    build_node_def c9Item c9NodeFrag ⟨.Global, 4⟩ =
      (c9Item, .error .NameConflict)
    ∧ build_edge_def c9Item c9EdgeFrag ⟨.Local, 4⟩ =
      (c9Item, .error .NameConflict) := by
  constructor
  · exact c9_name_conflict_node_and_edge.1 c9Item c9NodeFrag ⟨.Global, 4⟩
      [] [] rfl rfl rfl
  · exact c9_name_conflict_node_and_edge.2 c9Item c9EdgeFrag ⟨.Local, 4⟩
      c6NodeG c6NodeG .Planned .Planned [] [] rfl rfl rfl rfl rfl rfl rfl rfl

/-- A successfully evaluated tuple carries the requested discriminator. -/
theorem eval_to_tuple_pfx {ρ : Type} (p : Nat) (b : Builder ρ) (row : ρ)
    (t : Tuple) (h : eval_to_tuple p b row = .ok t) : t.pfx = p := by
  unfold eval_to_tuple at h
  split at h
  · exact absurd h (by simp)
  · cases h
    rfl

/-- A builder headed by a constant extractor evaluates to a list headed by that constant. -/
theorem evalBuilder_const_cons {ρ : Type} (v : Val) (b : Builder ρ) (row : ρ)
    (d : List Val) (h : evalBuilder (constExtractor v :: b) row = .ok d) :
    ∃ rest, d = v :: rest := by
  have h0 : evalBuilder (constExtractor v :: b) row =
      (match evalBuilder b row with
       | .error e => .error e
       | .ok vs => .ok (v :: vs)) := rfl
  rw [h0] at h
  split at h
  · exact absurd h (by simp)
  next vs hvs =>
    simp at h
    exact ⟨vs, h.symm⟩

/-- A tuple evaluated from a builder headed by a constant extractor starts with that constant. -/
theorem eval_to_tuple_const_head {ρ : Type} (p : Nat) (v : Val)
    (b : Builder ρ) (row : ρ) (t : Tuple)
    (h : eval_to_tuple p (constExtractor v :: b) row = .ok t) :
    ∃ rest, t.data = v :: rest := by
  unfold eval_to_tuple at h
  split at h
  · exact absurd h (by simp)
  next d hd =>
    obtain ⟨rest, hrest⟩ := evalBuilder_const_cons v b row d hd
    simp at h
    rw [← h, hrest]
    exact ⟨rest, rfl⟩

/-- Successful association evaluation yields one value per association. -/
theorem evalAssocVals_length {ρ : Type} (avbs : List (TableId × Builder ρ))
    (row : ρ) (rets : List Tuple) (h : evalAssocVals avbs row = .ok rets) :
    rets.length = avbs.length := by
  induction avbs generalizing rets with
  | nil =>
    unfold evalAssocVals at h
    simp at h
    subst h
    rfl
  | cons p rest ih =>
    obtain ⟨tid, b⟩ := p
    unfold evalAssocVals at h
    split at h
    · exact absurd h (by simp)
    next t ht =>
      split at h
      · exact absurd h (by simp)
      next ts hts =>
        simp at h
        subst h
        simp [ih ts hts]

/-- Every successfully evaluated association value carries the payload discriminator. -/
theorem evalAssocVals_pfx {ρ : Type} (avbs : List (TableId × Builder ρ))
    (row : ρ) (rets : List Tuple) (h : evalAssocVals avbs row = .ok rets) :
    ∀ r ∈ rets, r.pfx = DataKindData := by
  induction avbs generalizing rets with
  | nil =>
    unfold evalAssocVals at h
    simp at h
    subst h
    intro r hr
    exact absurd hr (by simp)
  | cons p rest ih =>
    obtain ⟨tid, b⟩ := p
    unfold evalAssocVals at h
    split at h
    · exact absurd h (by simp)
    next t ht =>
      split at h
      · exact absurd h (by simp)
      next ts hts =>
        simp at h
        subst h
        intro r hr
        rcases List.mem_cons.mp hr with hr1 | hr2
        · rw [hr1]
          exact eval_to_tuple_pfx DataKindData b row t ht
        · exact ih ts hts r hr2

/-- Characterization of the association loop on successful evaluations: the writes are the association values zipped in declared order, each under the main key bytes with the discriminator rewritten to the association id and routed by its persistence, and the final working key keeps the main key bytes. -/
theorem assocWrites_ok {ρ : Type} (row : ρ) (key : Tuple)
    (avbs : List (TableId × Builder ρ)) (rets : List Tuple)
    (h : evalAssocVals avbs row = .ok rets) :
    ∃ kf : Tuple, assocWrites row key avbs =
      (kf, (avbs.zip rets).map
        (fun p => ⟨storeTag p.1.1.in_root, ⟨p.1.1.id, key.data⟩, p.2⟩),
        .ok rets) ∧ kf.data = key.data := by
  induction avbs generalizing key rets with
  | nil =>
    unfold evalAssocVals at h
    simp at h
    subst h
    exact ⟨key, rfl, rfl⟩
  | cons p rest ih =>
    obtain ⟨tid, b⟩ := p
    unfold evalAssocVals at h
    split at h
    · exact absurd h (by simp)
    next t ht =>
      split at h
      · exact absurd h (by simp)
      next ts hts =>
        simp at h
        obtain ⟨kf, hrec, hkfd⟩ := ih (key.overwritePfx tid.id) ts hts
        refine ⟨kf, ?_, ?_⟩
        · unfold assocWrites
          simp only [ht, hrec]
          subst h
          rfl
        · rw [hkfd]
          rfl

/-- A store read after writing the same key returns the written value. -/
theorem getVal_putKV_self (s : Store) (k v : Tuple) :
    (s.putKV k v).getVal k = some v := by
  simp [Store.putKV, Store.getVal, List.find?_cons]

/-- Filtering by a predicate implied by the search predicate does not change the first hit. -/
theorem find?_filter_of_imp (l : List (Tuple × Tuple))
    (p q : Tuple × Tuple → Bool) (himp : ∀ x, p x = true → q x = true) :
    (l.filter q).find? p = l.find? p := by
  induction l with
  | nil => rfl
  | cons x xs ih =>
    by_cases hq : q x = true
    · by_cases hp : p x = true
      · simp [List.filter_cons, hq, List.find?_cons, hp]
      · simp only [Bool.not_eq_true] at hp
        simp [List.filter_cons, hq, List.find?_cons, hp, ih]
    · have hp : p x = false := by
        cases hpx : p x with
        | false => rfl
        | true => exact absurd (himp x hpx) hq
      simp only [Bool.not_eq_true] at hq
      simp [List.filter_cons, hq, List.find?_cons, hp, ih]

/-- A store read after writing a different key is unchanged. -/
theorem getVal_putKV_other (s : Store) (k v k2 : Tuple) (h : k2 ≠ k) :
    (s.putKV k v).getVal k2 = s.getVal k2 := by
  have hk : (k == k2) = false := by
    simp
    exact fun hc => h hc.symm
  unfold Store.putKV Store.getVal
  rw [List.find?_cons]
  simp only [hk]
  rw [find?_filter_of_imp s (fun z => z.1 == k2) (fun z => !(z.1 == k))]
  intro x hx
  have hx2 : x.1 = k2 := by simpa using hx
  simp [hx2]
  exact h

/-- Probing right after writing the probed key in the probed store returns the written value. -/
theorem probe_applyOp_self (st : DbState) (r : Bool) (kk vv : Tuple) :
    (st.applyOp ⟨storeTag r, kk, vv⟩).probe r kk = some vv := by
  cases r <;>
    simp [DbState.applyOp, storeTag, DbState.probe, getVal_putKV_self]

/-- A write under a different key leaves a probe unchanged. -/
theorem probe_applyOp_other (st : DbState) (r : Bool) (w : WriteOp)
    (k2 : Tuple) (h : k2 ≠ w.key) :
    (st.applyOp w).probe r k2 = st.probe r k2 := by
  obtain ⟨tag, kk, vv⟩ := w
  cases tag <;> cases r <;>
    simp [DbState.applyOp, DbState.probe, getVal_putKV_other _ _ _ _ h]

/-- A write log that never touches the probed key leaves the probe unchanged. -/
theorem probe_applyLog_untouched (st : DbState) (r : Bool) (ik : Tuple)
    (ws : List WriteOp) (h : ∀ w ∈ ws, ik ≠ w.key) :
    (st.applyLog ws).probe r ik = st.probe r ik := by
  induction ws generalizing st with
  | nil => rfl
  | cons w ws ih =>
    have hstep : DbState.applyLog st (w :: ws) =
        DbState.applyLog (st.applyOp w) ws := by
      simp [DbState.applyLog]
    rw [hstep, ih (st.applyOp w) (fun z hz => h z (by simp [hz]))]
    exact probe_applyOp_other st r w ik (h w (by simp))

/-- Shape of one fully successful insertion row: the log is the main record, then the inverse records, then the association records in declared order, and the output is the restored main key with the main value followed by the association values. -/
theorem insertRow_ok_shape {ρ : Type} (upsert : Bool) (target_key : TableId)
    (kb vb : Builder ρ) (ikb : Option (Builder ρ))
    (avbs : List (TableId × Builder ρ)) (st : DbState) (row : ρ)
    (k v : Tuple) (invWs : List WriteOp) (rets : List Tuple)
    (hk : eval_to_tuple target_key.id kb row = .ok k)
    (hv : eval_to_tuple DataKindData vb row = .ok v)
    (hinv : evalInvW target_key ikb row k = .ok invWs)
    (hrets : evalAssocVals avbs row = .ok rets)
    (hpass : (!upsert && (st.probe target_key.in_root k).isSome) = false) :
    insertRow upsert target_key kb vb ikb avbs st row =
      (⟨storeTag target_key.in_root, k, v⟩ :: invWs ++
        (avbs.zip rets).map
          (fun p => ⟨storeTag p.1.1.in_root, ⟨p.1.1.id, k.data⟩, p.2⟩),
        .ok ⟨[⟨target_key.id, k.data⟩], v :: rets⟩) := by
  obtain ⟨kf, haw, hkfd⟩ := assocWrites_ok row k avbs rets hrets
  unfold insertRow
  simp only [hk, hv, hpass, Bool.false_eq_true, if_false, hinv, haw]
  rw [show kf.overwritePfx target_key.id = (⟨target_key.id, k.data⟩ : Tuple)
    from by
      rw [show kf.overwritePfx target_key.id =
        (⟨target_key.id, kf.data⟩ : Tuple) from rfl, hkfd]]

/-- C3: in a non-upsert insertion, when the destination store (transactional if the target is in the root, temporary otherwise) holds the main key, the row fails with KeyConflict and the write log is empty, so no main, inverse or association record is written; in upsert mode the behavior is exactly that of a non-upsert insertion against an empty state, meaning only the collision probe is skipped and all writes proceed. -/
theorem c3_nonupsert_probe_upsert_skip {ρ : Type} (target_key : TableId)
    (kb vb : Builder ρ) (ikb : Option (Builder ρ))
    (avbs : List (TableId × Builder ρ)) (st : DbState) (row : ρ)
    (k v : Tuple)
    (hk : eval_to_tuple target_key.id kb row = .ok k)
    (hv : eval_to_tuple DataKindData vb row = .ok v) :
    ((st.probe target_key.in_root k).isSome = true →
      insertRow false target_key kb vb ikb avbs st row =
        ([], .error (.KeyConflict k)))
    ∧ insertRow true target_key kb vb ikb avbs st row =
      insertRow false target_key kb vb ikb avbs ⟨[], []⟩ row := by
  constructor
  · intro hprobe
    unfold insertRow
    simp [hk, hv, hprobe]
  · unfold insertRow
    simp [hk, hv, DbState.probe, Store.getVal]

/-- Witness for C3 at a concrete conflicting row. -/
theorem c3_witness :
    insertRow false c3Target c3Kb c3Vb none [] c3St () =
      ([], .error (.KeyConflict c3Key))
    ∧ insertRow true c3Target c3Kb c3Vb none [] c3St () =
      insertRow false c3Target c3Kb c3Vb none [] ⟨[], []⟩ () := by
  have h := c3_nonupsert_probe_upsert_skip c3Target c3Kb c3Vb none [] c3St ()
    c3Key ⟨0, [.str "a"]⟩ rfl rfl
  exact ⟨h.1 rfl, h.2⟩

/-- C4: for an edge main table the forward key builder is the constant TRUE followed by src.keys, dst.keys and edge.keys, the inverse key builder is the constant FALSE followed by dst.keys, src.keys and edge.keys, both keys are evaluated under the edge table-id discriminator, and the record written at the inverse key has the forward key tuple as its value. -/
theorem c4_edge_builders_and_inverse_record {ρ : Type}
    (ctx : TempDbContext) (e : EdgeInfo) (em : ExtractMap ρ)
    (src dst : NodeInfo) (kb vb ikb : Builder ρ)
    (hsrc : ctx.get_table_info e.src_id = .ok (.node src))
    (hdst : ctx.get_table_info e.dst_id = .ok (.node dst))
    (hmk : make_key_builders ctx (.edge e) em = .ok (kb, vb, some ikb)) :
    kb = constExtractor (.bool true) ::
      ((src.keys ++ dst.keys ++ e.keys).map
        (fun c => c.make_extractor em))
    ∧ ikb = constExtractor (.bool false) ::
      ((dst.keys ++ src.keys ++ e.keys).map
        (fun c => c.make_extractor em))
    ∧ ∀ (upsert : Bool) (avbs : List (TableId × Builder ρ)) (st : DbState)
        (row : ρ) (k v ik : Tuple),
      eval_to_tuple e.tid.id kb row = .ok k →
      eval_to_tuple DataKindData vb row = .ok v →
      eval_to_tuple e.tid.id ikb row = .ok ik →
      (upsert = true ∨ st.probe e.tid.in_root k = none) →
      k.pfx = e.tid.id ∧ ik.pfx = e.tid.id ∧
      ∃ ws, (insertRow upsert e.tid kb vb (some ikb) avbs st row).1 =
        ⟨storeTag e.tid.in_root, k, v⟩ ::
          ⟨storeTag e.tid.in_root, ik, k⟩ :: ws := by
  unfold make_key_builders at hmk
  simp only [hsrc, hdst, TableInfo.into_node] at hmk
  simp at hmk
  obtain ⟨hkb, hvb, hikb⟩ := hmk
  refine ⟨by rw [← hkb]; simp [List.map_append], by rw [← hikb]; simp [List.map_append], ?_⟩
  intro upsert avbs st row k v ik hk hv hik hpass
  refine ⟨eval_to_tuple_pfx _ kb row k hk, eval_to_tuple_pfx _ ikb row ik hik, ?_⟩
  have hpassb : (!upsert && (st.probe e.tid.in_root k).isSome) = false := by
    rcases hpass with hu | hp
    · rw [hu]
      rfl
    · rw [hp]
      simp
  have hinv : evalInvW e.tid (some ikb) row k =
      .ok [⟨storeTag e.tid.in_root, ik, k⟩] := by
    unfold evalInvW
    simp [hik]
  unfold insertRow
  simp only [hk, hv, hpassb, Bool.false_eq_true, if_false, hinv]
  rcases haw : assocWrites row k avbs with ⟨kf, ws, res⟩
  cases res <;> exact ⟨ws, rfl⟩

/-- Witness for C4 on a concrete edge insertion. -/
theorem c4_witness :
    c4Kb = constExtractor (.bool true) ::
      ((c4Src.keys ++ c4Dst.keys ++ c4Edge.keys).map
        (fun c => c.make_extractor c4Em))
    ∧ c4Ikb = constExtractor (.bool false) ::
      ((c4Dst.keys ++ c4Src.keys ++ c4Edge.keys).map
        (fun c => c.make_extractor c4Em))
    ∧ (c4K.pfx = c4Edge.tid.id ∧ c4Ik.pfx = c4Edge.tid.id ∧
      ∃ ws, (insertRow true c4Edge.tid c4Kb c4Vb (some c4Ikb) [] ⟨[], []⟩ ()).1 =
        ⟨storeTag c4Edge.tid.in_root, c4K, c4V⟩ ::
          ⟨storeTag c4Edge.tid.in_root, c4Ik, c4K⟩ :: ws) := by
  have h := c4_edge_builders_and_inverse_record c4Ctx c4Edge c4Em c4Src c4Dst
    c4Kb c4Vb c4Ikb rfl rfl rfl
  exact ⟨h.1, h.2.1,
    h.2.2 true [] ⟨[], []⟩ () c4K c4V c4Ik rfl rfl rfl (Or.inl rfl)⟩

/-- C5: for a successfully processed row, each association is written in declared order under the main key bytes with the discriminator rewritten to the association id and a Data-discriminated value; the emitted tuple set has exactly the restored main key and the main value followed by the association values, one per association. -/
theorem c5_assoc_writes_and_output {ρ : Type} (upsert : Bool)
    (target_key : TableId) (kb vb : Builder ρ) (ikb : Option (Builder ρ))
    (avbs : List (TableId × Builder ρ)) (st : DbState) (row : ρ)
    (k v : Tuple) (invWs : List WriteOp) (rets : List Tuple)
    (hk : eval_to_tuple target_key.id kb row = .ok k)
    (hv : eval_to_tuple DataKindData vb row = .ok v)
    (hinv : evalInvW target_key ikb row k = .ok invWs)
    (hrets : evalAssocVals avbs row = .ok rets)
    (hpass : (!upsert && (st.probe target_key.in_root k).isSome) = false) :
    insertRow upsert target_key kb vb ikb avbs st row =
      (⟨storeTag target_key.in_root, k, v⟩ :: invWs ++
        (avbs.zip rets).map
          (fun p => ⟨storeTag p.1.1.in_root, ⟨p.1.1.id, k.data⟩, p.2⟩),
        .ok ⟨[⟨target_key.id, k.data⟩], v :: rets⟩)
    ∧ rets.length = avbs.length
    ∧ (∀ r ∈ rets, r.pfx = DataKindData) :=
  ⟨insertRow_ok_shape upsert target_key kb vb ikb avbs st row k v invWs rets
      hk hv hinv hrets hpass,
    evalAssocVals_length avbs row rets hrets,
    evalAssocVals_pfx avbs row rets hrets⟩

/-- Witness for C5 on a concrete row with one association. -/
theorem c5_witness :
    insertRow false c3Target c3Kb c3Vb none c5Avbs ⟨[], []⟩ () =
      ([⟨.txn, ⟨7, [.int 1]⟩, ⟨0, [.str "a"]⟩⟩,
        ⟨.txn, ⟨9, [.int 1]⟩, ⟨0, [.str "t"]⟩⟩],
        .ok ⟨[⟨7, [.int 1]⟩], [⟨0, [.str "a"]⟩, ⟨0, [.str "t"]⟩]⟩)
    ∧ ([(⟨0, [.str "t"]⟩ : Tuple)] : List Tuple).length = c5Avbs.length := by
  have h := c5_assoc_writes_and_output false c3Target c3Kb c3Vb none c5Avbs
    ⟨[], []⟩ () c3Key ⟨0, [.str "a"]⟩ [] [⟨0, [.str "t"]⟩]
    rfl rfl rfl rfl rfl
  exact ⟨h.1, h.2.1⟩

/-- C10: a non-upsert edge insertion reads the state only through the probe at the forward key, and when that probe passes, the insertion succeeds, the inverse record is in the write log unconditionally, and after applying the log the store maps the inverse key to the forward key, overwriting whatever was stored there. -/
theorem c10_edge_inverse_unconditional {ρ : Type} (ctx : TempDbContext)
    (e : EdgeInfo) (em : ExtractMap ρ) (src dst : NodeInfo)
    (kb vb ikb : Builder ρ)
    (hsrc : ctx.get_table_info e.src_id = .ok (.node src))
    (hdst : ctx.get_table_info e.dst_id = .ok (.node dst))
    (hmk : make_key_builders ctx (.edge e) em = .ok (kb, vb, some ikb)) :
    (∀ (avbs : List (TableId × Builder ρ)) (st1 st2 : DbState) (row : ρ)
      (k : Tuple),
      eval_to_tuple e.tid.id kb row = .ok k →
      st1.probe e.tid.in_root k = st2.probe e.tid.in_root k →
      insertRow false e.tid kb vb (some ikb) avbs st1 row =
        insertRow false e.tid kb vb (some ikb) avbs st2 row)
    ∧ (∀ (avbs : List (TableId × Builder ρ)) (st : DbState) (row : ρ)
      (k v ik : Tuple) (rets : List Tuple),
      eval_to_tuple e.tid.id kb row = .ok k →
      eval_to_tuple DataKindData vb row = .ok v →
      eval_to_tuple e.tid.id ikb row = .ok ik →
      evalAssocVals avbs row = .ok rets →
      st.probe e.tid.in_root k = none →
      ∃ log out,
        insertRow false e.tid kb vb (some ikb) avbs st row = (log, .ok out) ∧
        (⟨storeTag e.tid.in_root, ik, k⟩ : WriteOp) ∈ log ∧
        (st.applyLog log).probe e.tid.in_root ik = some k) := by
  unfold make_key_builders at hmk
  simp only [hsrc, hdst, TableInfo.into_node] at hmk
  simp at hmk
  obtain ⟨hkb, hvb, hikb⟩ := hmk
  constructor
  · intro avbs st1 st2 row k hk hpeq
    unfold insertRow
    simp only [hk]
    rw [hpeq]
  · intro avbs st row k v ik rets hk hv hik hrets hprobe
    have hpassb : (!false && (st.probe e.tid.in_root k).isSome) = false := by
      rw [hprobe]
      simp
    have hinv : evalInvW e.tid (some ikb) row k =
        .ok [⟨storeTag e.tid.in_root, ik, k⟩] := by
      unfold evalInvW
      simp [hik]
    have hshape := insertRow_ok_shape false e.tid kb vb (some ikb) avbs st row
      k v [⟨storeTag e.tid.in_root, ik, k⟩] rets hk hv hinv hrets hpassb
    have hkhead : ∃ kr, k.data = .bool true :: kr := by
      rw [← hkb] at hk
      exact eval_to_tuple_const_head e.tid.id (.bool true) _ row k hk
    have hikhead : ∃ ir, ik.data = .bool false :: ir := by
      rw [← hikb] at hik
      exact eval_to_tuple_const_head e.tid.id (.bool false) _ row ik hik
    obtain ⟨kr, hkr⟩ := hkhead
    obtain ⟨ir, hir⟩ := hikhead
    have hdata : ik.data ≠ k.data := by
      rw [hkr, hir]
      intro hc
      simp at hc
    refine ⟨_, _, hshape, by simp, ?_⟩
    have hstep : DbState.applyLog st
        (⟨storeTag e.tid.in_root, k, v⟩ ::
          [⟨storeTag e.tid.in_root, ik, k⟩] ++
          (avbs.zip rets).map
            (fun p => ⟨storeTag p.1.1.in_root, ⟨p.1.1.id, k.data⟩, p.2⟩)) =
        DbState.applyLog
          ((st.applyOp ⟨storeTag e.tid.in_root, k, v⟩).applyOp
            ⟨storeTag e.tid.in_root, ik, k⟩)
          ((avbs.zip rets).map
            (fun p => ⟨storeTag p.1.1.in_root, ⟨p.1.1.id, k.data⟩, p.2⟩)) := by
      simp [DbState.applyLog]
    rw [hstep]
    rw [probe_applyLog_untouched _ _ _ _ ?_]
    · exact probe_applyOp_self _ e.tid.in_root ik k
    · intro w hw
      rcases List.mem_map.mp hw with ⟨p, hp, hweq⟩
      intro hc
      rw [← hweq] at hc
      apply hdata
      rw [hc]

/-- Witness for C10: the insertion passes the forward probe and overwrites the pre-existing record at the inverse key. -/
theorem c10_witness :
    ∃ log out,
      insertRow false c4Edge.tid c4Kb c4Vb (some c4Ikb) [] c10St () =
        (log, .ok out) ∧
      (⟨storeTag c4Edge.tid.in_root, c4Ik, c4K⟩ : WriteOp) ∈ log ∧
      (c10St.applyLog log).probe c4Edge.tid.in_root c4Ik = some c4K :=
  (c10_edge_inverse_unconditional c4Ctx c4Edge c4Em c4Src c4Dst
    c4Kb c4Vb c4Ikb rfl rfl rfl).2 [] c10St () c4K c4V c4Ik [] rfl rfl rfl rfl
    rfl

end Cozo
